import Mathlib

/-!
Shallow embedding of the go-senml library (senml.go, the RFC 8428
implementation) and verification of its specification.

Modelling conventions:
* Go pointer fields (`*string`, `*float64`, `*int`) become `Option` fields;
  `float64` is modelled as `ℚ`.
* The Go `errors.New` / `fmt.Errorf` sites of the resolution pipeline become
  constructors of `ResolveError`.
* Go multiple return `(resolvedMessage Message, err error)` becomes the pair
  `Message × Option ResolveError`; as in the Go source, on error the message
  component holds the records appended before the failing record.
* `time.Now()` is read once per call in the source, so `Resolve` takes the
  wall-clock value `timeNow` as an explicit parameter.
* `sort.SliceStable(records, less)` is modelled as a stable sort
  (`List.insertionSort`) with the complementary non-strict preorder
  `recordLe a b := recordLess b a = false`.
-/

namespace SenML

/-- Mirror of the Go struct `Record` (senml.go): every attribute is a nullable
pointer, hence an `Option`. XML bookkeeping (`XMLName`) carries no data and is
omitted. -/
structure Record where
  baseName : Option String := none
  baseTime : Option ℚ := none
  baseUnit : Option String := none
  baseValue : Option ℚ := none
  baseSum : Option ℚ := none
  baseVersion : Option Int := none
  name : Option String := none
  unit : Option String := none
  value : Option ℚ := none
  boolValue : Option Bool := none
  stringValue : Option String := none
  dataValue : Option String := none
  sum : Option ℚ := none
  time : Option ℚ := none
  updateTime : Option ℚ := none
  deriving Repr, DecidableEq

/-- Mirror of the Go struct `Message`: the ordered records of a SenML pack. -/
structure Message where
  records : List Record := []
  deriving Repr, DecidableEq

/-- The error sites of the resolution pipeline in senml.go, one constructor
per `errors.New` / `fmt.Errorf` call. -/
inductive ResolveError where
  | unsupportedVersion (expected got : Int)
  | inconsistentVersion
  | emptyName
  | invalidNameCharacters
  | invalidNameStart
  | missingValue
  deriving Repr, DecidableEq

/-- Mirror of Go `const SupportedVersion int = 10` -/
def SupportedVersion : Int := 10

/-- The literal `2^28` appearing in `resolveTime` of senml.go. In Go, `^` is
bitwise xor, so the constant evaluates to `2 xor 28 = 30`, not `2**28`. -/
def goTimeThreshold : ℚ := ((2 ^^^ 28 : Nat) : ℚ)

/-- One character of the Go character class `[a-zA-Z0-9\-\:\.\/\_]` used by
`resolveName`. -/
def isValidNameChar (c : Char) : Bool :=
  c.isAlphanum || c == '-' || c == ':' || c == '.' || c == '/' || c == '_'

/-- Mirror of Go `func resolveName(baseName *string, name *string) (*string, error)`.
The Go code slices the first byte (`resolvedName[:1]`) for the start check;
that check only runs once every character matched the ASCII class, so the
first byte is the first character. -/
def resolveName (baseName name : Option String) : Except ResolveError String :=
  let resolvedName : String :=
    (match baseName with | some b => b | none => "") ++
      (match name with | some n => n | none => "")
  if resolvedName.length = 0 then
    .error .emptyName
  else if !resolvedName.data.all isValidNameChar then
    .error .invalidNameCharacters
  else if !(resolvedName.data.take 1).all Char.isAlphanum then
    .error .invalidNameStart
  else
    .ok resolvedName

/-- Mirror of Go `func resolveUnit(baseUnit *string, unit *string) *string` -/
def resolveUnit (baseUnit unit : Option String) : Option String :=
  match unit with
  | some u => some u
  | none =>
    match baseUnit with
    | some b => some b
    | none => none

/-- Mirror of Go `func resolveValue(baseValue *float64, value *float64) *float64` -/
def resolveValue (baseValue value : Option ℚ) : Option ℚ :=
  let resolvedValue : ℚ := match baseValue with | some b => b | none => 0
  let resolvedValue : ℚ :=
    match value with | some v => resolvedValue + v | none => resolvedValue
  if baseValue.isSome || value.isSome then some resolvedValue else none

/-- Mirror of Go `func resolveBoolValue(value *bool) *bool` -/
def resolveBoolValue (value : Option Bool) : Option Bool :=
  match value with
  | some v => some v
  | none => none

/-- Mirror of Go `func resolveStringValue(value *string) *string` -/
def resolveStringValue (value : Option String) : Option String :=
  match value with
  | some v => some v
  | none => none

/-- Mirror of Go `func resolveDataValue(value *string) *string` -/
def resolveDataValue (value : Option String) : Option String :=
  match value with
  | some v => some v
  | none => none

/-- Mirror of Go `func resolveSum(baseSum *float64, sum *float64) *float64` -/
def resolveSum (baseSum sum : Option ℚ) : Option ℚ :=
  let resolvedSum : ℚ := match baseSum with | some b => b | none => 0
  let resolvedSum : ℚ :=
    match sum with | some v => resolvedSum + v | none => resolvedSum
  if baseSum.isSome || sum.isSome then some resolvedSum else none

/-- Mirror of Go `func resolveTime(baseTime *float64, time *float64, timeNow float64) *float64` -/
def resolveTime (baseTime time : Option ℚ) (timeNow : ℚ) : Option ℚ :=
  let resolvedTime : ℚ := match baseTime with | some b => b | none => 0
  let resolvedTime : ℚ :=
    match time with | some t => resolvedTime + t | none => resolvedTime
  if baseTime.isSome || time.isSome then
    if resolvedTime < goTimeThreshold then some (resolvedTime + timeNow)
    else some resolvedTime
  else none

/-- Mirror of Go `func resolveUpdateTime(updateTime *float64) *float64` -/
def resolveUpdateTime (updateTime : Option ℚ) : Option ℚ :=
  match updateTime with
  | some v => some v
  | none => none

/-- Mirror of Go `func validateRecordHasValue(record Record) error` -/
def validateRecordHasValue (record : Record) : Except ResolveError Unit :=
  if record.value = none ∧ record.stringValue = none ∧ record.boolValue = none ∧
      record.dataValue = none ∧ record.sum = none then
    .error .missingValue
  else
    .ok ()

/-- Mirror of Go `func setBaseVersionIfNecessary(message Message, baseVersion *int)` -/
def setBaseVersionIfNecessary (message : Message) (baseVersion : Option Int) :
    Message :=
  match baseVersion with
  | some v =>
    if v < SupportedVersion then
      { records := message.records.map fun r => { r with baseVersion := some v } }
    else message
  | none => message

/-- The comparator passed to `sort.SliceStable` in
`sortRecordsChronologically`. -/
def recordLess (first second : Record) : Bool :=
  match second.time with
  | none => false
  | some secondTime =>
    match first.time with
    | none => true
    | some firstTime => decide (firstTime < secondTime)

/-- The non-strict total preorder complementary to `recordLess`; a stable sort
by `recordLess` is a stable sort by this preorder. -/
def recordLe (first second : Record) : Prop := recordLess second first = false

instance recordLe.decidableRel : DecidableRel recordLe := fun a b =>
  inferInstanceAs (Decidable (recordLess b a = false))

/-- Mirror of Go `func sortRecordsChronologically(records []Record)`: `sort.SliceStable`
modelled as a stable sort with the complementary preorder. -/
def sortRecordsChronologically (records : List Record) : List Record :=
  records.insertionSort recordLe

/-- The running base state of one `Resolve` call: the local variables
`baseName .. baseVersion` of `func (message Message) Resolve()`. -/
structure BaseState where
  baseName : Option String := none
  baseTime : Option ℚ := none
  baseUnit : Option String := none
  baseValue : Option ℚ := none
  baseSum : Option ℚ := none
  baseVersion : Option Int := none
  deriving Repr, DecidableEq

/-- The version handling at the top of the loop body of `Resolve`
(senml.go lines 318-331). -/
def checkVersion (state : BaseState) (record : Record) :
    Except ResolveError BaseState :=
  match record.baseVersion with
  | some v =>
    if v > SupportedVersion then
      .error (.unsupportedVersion SupportedVersion v)
    else
      match state.baseVersion with
      | none => .ok { state with baseVersion := some v }
      | some bv => if v ≠ bv then .error .inconsistentVersion else .ok state
  | none =>
    match state.baseVersion with
    | none => .ok { state with baseVersion := some SupportedVersion }
    | some _ => .ok state

/-- The base-attribute updates of the loop body of `Resolve`
(senml.go lines 332-346). -/
def updateBaseState (state : BaseState) (record : Record) : BaseState :=
  { state with
    baseName := match record.baseName with | some b => some b | none => state.baseName
    baseTime := match record.baseTime with | some b => some b | none => state.baseTime
    baseUnit := match record.baseUnit with | some b => some b | none => state.baseUnit
    baseValue := match record.baseValue with | some b => some b | none => state.baseValue
    baseSum := match record.baseSum with | some b => some b | none => state.baseSum }

/-- The per-record resolution of the loop body of `Resolve`
(senml.go lines 348-364): build `resolvedRecord` from the running base state
and validate it. -/
def resolveRecord (state : BaseState) (record : Record) (timeNow : ℚ) :
    Except ResolveError Record :=
  match resolveName state.baseName record.name with
  | .error e => .error e
  | .ok resolvedName =>
    let resolvedRecord : Record :=
      { name := some resolvedName
        unit := resolveUnit state.baseUnit record.unit
        value := resolveValue state.baseValue record.value
        boolValue := resolveBoolValue record.boolValue
        stringValue := resolveStringValue record.stringValue
        dataValue := resolveDataValue record.dataValue
        sum := resolveSum state.baseSum record.sum
        time := resolveTime state.baseTime record.time timeNow
        updateTime := resolveUpdateTime record.updateTime }
    match validateRecordHasValue resolvedRecord with
    | .error e => .error e
    | .ok _ => .ok resolvedRecord

/-- The record loop of `Resolve` (senml.go lines 315-367). As in the Go
source, on error the records resolved before the failing record have already
been appended to the output; the returned triple carries the appended
records, the final base state, and the error if any. -/
def resolveLoop (timeNow : ℚ) (state : BaseState) :
    List Record → List Record × BaseState × Option ResolveError
  | [] => ([], state, none)
  | record :: rest =>
    match checkVersion state record with
    | .error e => ([], state, some e)
    | .ok stateV =>
      let stateB := updateBaseState stateV record
      match resolveRecord stateB record timeNow with
      | .error e => ([], stateB, some e)
      | .ok resolvedRecord =>
        let tail := resolveLoop timeNow stateB rest
        (resolvedRecord :: tail.1, tail.2)

/-- Mirror of Go `func (message Message) Resolve() (resolvedMessage Message, err error)`.
On success the base version is stamped and the records sorted; on error the
named return `resolvedMessage` holds the records appended so far, untouched
by stamping and sorting. -/
def Resolve (message : Message) (timeNow : ℚ) : Message × Option ResolveError :=
  let res := resolveLoop timeNow {} message.records
  match res.2.2 with
  | some e => ({ records := res.1 }, some e)
  | none =>
    ({ records :=
        sortRecordsChronologically
          (setBaseVersionIfNecessary { records := res.1 } res.2.1.baseVersion).records },
      none)

/-- The error produced by processing one record from a given base state: the
first failing check among the version check and the per-record resolution. -/
def recordError (state : BaseState) (record : Record) (timeNow : ℚ) :
    Option ResolveError :=
  match checkVersion state record with
  | .error e => some e
  | .ok stateV =>
    match resolveRecord (updateBaseState stateV record) record timeNow with
    | .error e => some e
    | .ok _ => none

/-- The chronological key order of the specification: records without a time
come first, dated records are ordered by time. -/
def timeKeyLe (a b : Record) : Prop :=
  match a.time, b.time with
  | none, _ => True
  | some _, none => False
  | some x, some y => x ≤ y

/-- The resolved records in the order the fold produced them, after version
stamping and before the chronological sort. -/
def preSortRecords (message : Message) (timeNow : ℚ) : List Record :=
  (setBaseVersionIfNecessary
    { records := (resolveLoop timeNow {} message.records).1 }
    (resolveLoop timeNow {} message.records).2.1.baseVersion).records

/-! ## Helper lemmas -/

/-- Go's `^` is xor, so the threshold literal of `resolveTime` is 30. -/
theorem goTimeThreshold_eq : goTimeThreshold = 30 := by
  rw [goTimeThreshold, show (2 ^^^ 28 : Nat) = 30 from rfl]
  norm_num

/-! ## Claims -/

/-- C1: the claim states that a resolved time below `2^28 = 268435456` gets
the wall-clock time added and a resolved time `≥ 2^28` is passed through.
The code compares against the Go literal `2^28`, which is bitwise xor and
equals 30: at the failing input (no base time, record time 100, wall clock
1000) the code passes 100 through unchanged even though `100 < 268435456`,
where the claim (and RFC 8428) require the output 1100. Below the actual
threshold 30 the conversion does happen. -/
theorem C1_time_threshold_bug :
    resolveTime none (some 100) 1000 = some 100 ∧
    (100 : ℚ) < 268435456 ∧
    goTimeThreshold = 30 ∧
    resolveTime none (some 2) 1000 = some 1002 := by
  refine ⟨?_, by norm_num, goTimeThreshold_eq, ?_⟩
  · simp [resolveTime, goTimeThreshold_eq]
    norm_num
  · simp [resolveTime, goTimeThreshold_eq]
    norm_num

/-- C5: `resolveValue` (and independently `resolveSum`) returns the base
contribution (or zero) plus the record's own contribution (or zero), present
in the output iff at least one of the two inputs is set; a base value of
exactly 0 still counts as set, and a record touching neither stays absent. -/
theorem C5_value_sum_additive_presence :
    (∀ baseValue value : Option ℚ,
      resolveValue baseValue value =
        if baseValue.isSome || value.isSome then
          some (baseValue.getD 0 + value.getD 0)
        else none) ∧
    (∀ baseSum recordSum : Option ℚ,
      resolveSum baseSum recordSum =
        if baseSum.isSome || recordSum.isSome then
          some (baseSum.getD 0 + recordSum.getD 0)
        else none) ∧
    resolveValue (some 0) none = some 0 ∧
    resolveSum (some 0) none = some 0 ∧
    resolveValue none none = none ∧
    resolveSum none none = none := by
  refine ⟨fun b v => ?_, fun b v => ?_, by simp [resolveValue], by simp [resolveSum],
    rfl, rfl⟩
  · cases b <;> cases v <;> simp [resolveValue]
  · cases b <;> cases v <;> simp [resolveSum]

/-- C8: the resolved unit is the record's own unit when present, otherwise
the base unit when present, otherwise absent; units override whole, they are
never concatenated or accumulated. -/
theorem C8_unit_override :
    (∀ baseUnit unit : Option String, resolveUnit baseUnit unit = unit.or baseUnit) ∧
    (∀ b u : String, resolveUnit (some b) (some u) = some u) ∧
    (∀ b : String, resolveUnit (some b) none = some b) ∧
    resolveUnit none none = none := by
  refine ⟨fun b u => ?_, fun b u => rfl, fun b => rfl, rfl⟩
  cases b <;> cases u <;> rfl

/-- C9: `validateRecordHasValue` fails with `missingValue` iff none of value,
bool value, string value, data value, sum is present on the resolved record;
presence is what counts, so a false boolean, an empty string, and a value
contributed only by a base value of 0 all pass the check. -/
theorem C9_missing_value_iff :
    (∀ record : Record,
      validateRecordHasValue record = .error .missingValue ↔
        record.value = none ∧ record.boolValue = none ∧ record.stringValue = none ∧
          record.dataValue = none ∧ record.sum = none) ∧
    validateRecordHasValue { boolValue := some false } = .ok () ∧
    validateRecordHasValue { stringValue := some "" } = .ok () ∧
    validateRecordHasValue { value := resolveValue (some 0) none } = .ok () := by
  refine ⟨fun record => ?_, rfl, rfl, by simp [validateRecordHasValue, resolveValue]⟩
  unfold validateRecordHasValue
  split
  · rename_i h
    exact iff_of_true rfl (by tauto)
  · rename_i h
    exact iff_of_false (by simp) (by tauto)

/-- C6: `resolveName` acts on the concatenation of the base name (if any) and
the record's own name (if any): it fails with `emptyName` iff the
concatenation is empty, with `invalidNameCharacters` iff it is nonempty and
contains a character outside `[A-Za-z0-9-:./_]`, with `invalidNameStart` iff
it is nonempty, all characters are in the set, and its first character is not
alphanumeric; otherwise the concatenation itself becomes the resolved name. -/
theorem C6_name_validation (baseName name : Option String) :
    (resolveName baseName name = .error .emptyName ↔
      baseName.getD "" ++ name.getD "" = "") ∧
    (resolveName baseName name = .error .invalidNameCharacters ↔
      baseName.getD "" ++ name.getD "" ≠ "" ∧
        ∃ c ∈ (baseName.getD "" ++ name.getD "").data, isValidNameChar c = false) ∧
    (resolveName baseName name = .error .invalidNameStart ↔
      baseName.getD "" ++ name.getD "" ≠ "" ∧
        (∀ c ∈ (baseName.getD "" ++ name.getD "").data, isValidNameChar c = true) ∧
        ∀ c ∈ (baseName.getD "" ++ name.getD "").data.take 1, c.isAlphanum = false) ∧
    (resolveName baseName name = .ok (baseName.getD "" ++ name.getD "") ↔
      baseName.getD "" ++ name.getD "" ≠ "" ∧
        (∀ c ∈ (baseName.getD "" ++ name.getD "").data, isValidNameChar c = true) ∧
        ∀ c ∈ (baseName.getD "" ++ name.getD "").data.take 1, c.isAlphanum = true) := by
  set s : String := baseName.getD "" ++ name.getD "" with hs
  have hres : resolveName baseName name =
      if s.length = 0 then .error .emptyName
      else if !s.data.all isValidNameChar then .error .invalidNameCharacters
      else if !(s.data.take 1).all Char.isAlphanum then .error .invalidNameStart
      else .ok s := by
    cases baseName <;> cases name <;> rfl
  rw [hres]
  have hlen : s.length = s.data.length := rfl
  by_cases hempty : s = ""
  · have h0 : s.length = 0 := by rw [hempty]; rfl
    rw [if_pos h0]
    refine ⟨iff_of_true rfl hempty, iff_of_false (by simp) (by simp [hempty]),
      iff_of_false (by simp) (by simp [hempty]),
      iff_of_false (by simp) (by simp [hempty])⟩
  · obtain ⟨c0, cs, hd⟩ : ∃ c0 cs, s.data = c0 :: cs := by
      rcases hcase : s.data with _ | ⟨c0, cs⟩
      · exact absurd (String.ext (by rw [hcase])) hempty
      · exact ⟨c0, cs, rfl⟩
    have h0 : ¬s.length = 0 := by
      rw [hlen, hd]
      simp
    have hc0mem : c0 ∈ s.data.take 1 := by
      rw [hd]
      simp
    by_cases hall : s.data.all isValidNameChar = true
    · by_cases hfirst : (s.data.take 1).all Char.isAlphanum = true
      · have hok : (if s.length = 0 then (.error .emptyName : Except ResolveError String)
            else if !s.data.all isValidNameChar then .error .invalidNameCharacters
            else if !(s.data.take 1).all Char.isAlphanum then .error .invalidNameStart
            else .ok s) = .ok s := by
          simp [h0, hall, hfirst]
        rw [hok]
        refine ⟨iff_of_false (by simp) hempty, iff_of_false (by simp) ?_,
          iff_of_false (by simp) ?_,
          iff_of_true rfl ⟨hempty, List.all_eq_true.mp hall, List.all_eq_true.mp hfirst⟩⟩
        · rintro ⟨-, x, hx, hfx⟩
          rw [List.all_eq_true.mp hall x hx] at hfx
          cases hfx
        · rintro ⟨-, -, hbad⟩
          have hb := hbad c0 hc0mem
          rw [List.all_eq_true.mp hfirst c0 hc0mem] at hb
          cases hb
      · have hfirstF : (s.data.take 1).all Char.isAlphanum = false :=
          Bool.eq_false_iff.mpr hfirst
        have hstart : (if s.length = 0 then (.error .emptyName : Except ResolveError String)
            else if !s.data.all isValidNameChar then .error .invalidNameCharacters
            else if !(s.data.take 1).all Char.isAlphanum then .error .invalidNameStart
            else .ok s) = .error .invalidNameStart := by
          simp [h0, hall, hfirstF]
        rw [hstart]
        have hc0bad : c0.isAlphanum = false := by
          rcases List.all_eq_false.mp hfirstF with ⟨x, hx, hfx⟩
          rw [hd] at hx
          simp only [List.take_succ_cons, List.take_zero, List.mem_singleton] at hx
          rw [hx] at hfx
          exact Bool.eq_false_iff.mpr hfx
        refine ⟨iff_of_false (by simp) hempty, iff_of_false (by simp) ?_,
          iff_of_true rfl ⟨hempty, List.all_eq_true.mp hall, ?_⟩,
          iff_of_false (by simp) ?_⟩
        · rintro ⟨-, x, hx, hfx⟩
          rw [List.all_eq_true.mp hall x hx] at hfx
          cases hfx
        · intro c hc
          rw [hd] at hc
          simp only [List.take_succ_cons, List.take_zero, List.mem_singleton] at hc
          rw [hc]
          exact hc0bad
        · rintro ⟨-, -, hgood⟩
          rw [hgood c0 hc0mem] at hc0bad
          cases hc0bad
    · have hallF : s.data.all isValidNameChar = false := Bool.eq_false_iff.mpr hall
      have hchars : (if s.length = 0 then (.error .emptyName : Except ResolveError String)
          else if !s.data.all isValidNameChar then .error .invalidNameCharacters
          else if !(s.data.take 1).all Char.isAlphanum then .error .invalidNameStart
          else .ok s) = .error .invalidNameCharacters := by
        simp [h0, hallF]
      rw [hchars]
      obtain ⟨x, hx, hfx⟩ := List.all_eq_false.mp hallF
      have hxbad : isValidNameChar x = false := Bool.eq_false_iff.mpr hfx
      refine ⟨iff_of_false (by simp) hempty,
        iff_of_true rfl ⟨hempty, x, hx, hxbad⟩,
        iff_of_false (by simp) ?_, iff_of_false (by simp) ?_⟩
      · rintro ⟨-, hgood, -⟩
        rw [hgood x hx] at hxbad
        cases hxbad
      · rintro ⟨-, hgood, -⟩
        rw [hgood x hx] at hxbad
        cases hxbad

/-- Unfolding of one loop step of `resolveLoop`. -/
theorem resolveLoop_cons (timeNow : ℚ) (s : BaseState) (record : Record)
    (rest : List Record) :
    resolveLoop timeNow s (record :: rest) =
      match checkVersion s record with
      | .error e => ([], s, some e)
      | .ok stateV =>
        match resolveRecord (updateBaseState stateV record) record timeNow with
        | .error e => ([], updateBaseState stateV record, some e)
        | .ok resolvedRecord =>
          (resolvedRecord :: (resolveLoop timeNow (updateBaseState stateV record) rest).1,
            (resolveLoop timeNow (updateBaseState stateV record) rest).2) := rfl

/-- The error component of `Resolve` is the error component of the loop. -/
theorem Resolve_err_component (message : Message) (timeNow : ℚ) :
    (Resolve message timeNow).2 = (resolveLoop timeNow {} message.records).2.2 := by
  unfold Resolve
  rcases hres : (resolveLoop timeNow {} message.records).2.2 with _ | e0 <;> simp [hres]

/-- C2 (amended): a record whose base version exceeds the supported maximum
fails with `unsupportedVersion`; before any version is adopted, a record with
a base version at most the maximum adopts it, while a record without one
adopts the default `SupportedVersion`; once a version is adopted, a record
carrying a different (supported) base version fails with
`inconsistentVersion` and one carrying the same version passes. Consequently
a pack whose first record carries no base version and whose later record
carries base version 5 fails with `inconsistentVersion` instead of adopting
5. -/
theorem C2_version_rules :
    (∀ (s : BaseState) (r : Record) (v : Int),
      r.baseVersion = some v → SupportedVersion < v →
      checkVersion s r = .error (.unsupportedVersion SupportedVersion v)) ∧
    (∀ (s : BaseState) (r : Record) (v : Int),
      r.baseVersion = some v → v ≤ SupportedVersion → s.baseVersion = none →
      checkVersion s r = .ok { s with baseVersion := some v }) ∧
    (∀ (s : BaseState) (r : Record),
      r.baseVersion = none → s.baseVersion = none →
      checkVersion s r = .ok { s with baseVersion := some SupportedVersion }) ∧
    (∀ (s : BaseState) (r : Record) (v bv : Int),
      r.baseVersion = some v → v ≤ SupportedVersion → s.baseVersion = some bv →
      v ≠ bv → checkVersion s r = .error .inconsistentVersion) ∧
    (∀ (s : BaseState) (r : Record) (bv : Int),
      r.baseVersion = some bv → bv ≤ SupportedVersion → s.baseVersion = some bv →
      checkVersion s r = .ok s) ∧
    (Resolve { records := [{ name := some "a", value := some 1 },
        { name := some "b", value := some 2, baseVersion := some 5 }] } 0).2 =
      some .inconsistentVersion := by
  refine ⟨?_, ?_, ?_, ?_, ?_, ?_⟩
  · intro s r v hr hv
    simp [checkVersion, hr, hv]
  · intro s r v hr hle hsnone
    simp [checkVersion, hr, hsnone, not_lt.mpr hle]
  · intro s r hr hsnone
    simp [checkVersion, hr, hsnone]
  · intro s r v bv hr hle hsbv hne
    simp [checkVersion, hr, hsbv, not_lt.mpr hle, hne]
  · intro s r bv hr hle hsbv
    simp [checkVersion, hr, hsbv, not_lt.mpr hle]
  · rw [Resolve_err_component]
    simp [resolveLoop, checkVersion, updateBaseState, resolveRecord,
      resolveUnit, resolveValue, resolveBoolValue, resolveStringValue,
      resolveDataValue, resolveSum, resolveTime, resolveUpdateTime,
      validateRecordHasValue, SupportedVersion,
      show resolveName none (some "a") = Except.ok "a" from rfl]

/-- Witness for C2_version_rules at concrete inputs. -/
theorem C2_version_rules_witness :
    checkVersion {} { baseVersion := some 11 } =
      .error (.unsupportedVersion SupportedVersion 11) ∧
    checkVersion {} { baseVersion := some 5 } =
      .ok { baseVersion := some 5 } ∧
    checkVersion {} { name := some "a" } =
      .ok { baseVersion := some SupportedVersion } ∧
    checkVersion { baseVersion := some 10 } { baseVersion := some 5 } =
      .error .inconsistentVersion ∧
    checkVersion { baseVersion := some 5 } { baseVersion := some 5 } =
      .ok { baseVersion := some 5 } :=
  ⟨C2_version_rules.1 {} _ 11 rfl (by norm_num [SupportedVersion]),
    C2_version_rules.2.1 {} _ 5 rfl (by norm_num [SupportedVersion]) rfl,
    C2_version_rules.2.2.1 {} _ rfl rfl,
    C2_version_rules.2.2.2.1 _ _ 5 10 rfl (by norm_num [SupportedVersion]) rfl
      (by norm_num),
    C2_version_rules.2.2.2.2.1 _ _ 5 rfl (by norm_num [SupportedVersion]) rfl⟩

/-- Counterexample to C2 as stated: the claim says a pack whose first records
carry no base version and whose later record carries base version 5 adopts 5
and succeeds; the code adopts the default version 10 already at the first
record and therefore fails with `inconsistentVersion` on the later record. -/
theorem C2_counterexample :
    (Resolve { records := [{ name := some "a", value := some 1 },
        { name := some "b", value := some 2, baseVersion := some 5 }] } 0).2 =
      some .inconsistentVersion := by
  rw [Resolve_err_component]
  simp [resolveLoop, checkVersion, updateBaseState, resolveRecord,
    resolveUnit, resolveValue, resolveBoolValue, resolveStringValue,
    resolveDataValue, resolveSum, resolveTime, resolveUpdateTime,
    validateRecordHasValue, SupportedVersion,
    show resolveName none (some "a") = Except.ok "a" from rfl]

/-- Decomposition of a failing loop run: the error is produced by the first
record that fails, every record before it resolved successfully, and the
output records are exactly the resolved prefix. -/
theorem resolveLoop_error_decomp (timeNow : ℚ) :
    ∀ (rs : List Record) (s : BaseState) (e : ResolveError),
      (resolveLoop timeNow s rs).2.2 = some e →
      ∃ pre record post,
        rs = pre ++ record :: post ∧
        (resolveLoop timeNow s pre).2.2 = none ∧
        recordError (resolveLoop timeNow s pre).2.1 record timeNow = some e ∧
        (resolveLoop timeNow s rs).1 = (resolveLoop timeNow s pre).1 := by
  intro rs
  induction rs with
  | nil =>
    intro s e h
    simp [resolveLoop] at h
  | cons record rest ih =>
    intro s e h
    rcases hcv : checkVersion s record with e0 | stateV
    · simp only [resolveLoop_cons, hcv] at h
      obtain rfl : e0 = e := by simpa using h
      refine ⟨[], record, rest, rfl, rfl, ?_, ?_⟩
      · simp [recordError, resolveLoop, hcv]
      · simp [resolveLoop_cons, hcv, resolveLoop]
    · rcases hrr : resolveRecord (updateBaseState stateV record) record timeNow with
        e0 | rr
      · simp only [resolveLoop_cons, hcv, hrr] at h
        obtain rfl : e0 = e := by simpa using h
        refine ⟨[], record, rest, rfl, rfl, ?_, ?_⟩
        · simp [recordError, resolveLoop, hcv, hrr]
        · simp [resolveLoop_cons, hcv, hrr, resolveLoop]
      · simp only [resolveLoop_cons, hcv, hrr] at h
        have h' : (resolveLoop timeNow (updateBaseState stateV record) rest).2.2 =
            some e := by simpa using h
        obtain ⟨pre, record1, post, hsplit, hpre, herr, hout⟩ :=
          ih (updateBaseState stateV record) e h'
        refine ⟨record :: pre, record1, post, by rw [hsplit]; rfl, ?_, ?_, ?_⟩
        · simp only [resolveLoop_cons, hcv, hrr]
          simpa using hpre
        · have hst : (resolveLoop timeNow s (record :: pre)).2.1 =
              (resolveLoop timeNow (updateBaseState stateV record) pre).2.1 := by
            simp only [resolveLoop_cons, hcv, hrr]
          rw [hst]
          exact herr
        · simp only [resolveLoop_cons, hcv, hrr]
          simp only [hout]

/-- C3 (amended): when `Resolve` fails it returns exactly the error of the
first violating record in input order (all earlier records resolved
successfully, so there is no error aggregation), and — as the Go named
return makes visible — the accompanying message holds exactly the records
resolved before the failure; it is not empty once one record succeeded. -/
theorem C3_first_error (message : Message) (timeNow : ℚ) (e : ResolveError)
    (h : (Resolve message timeNow).2 = some e) :
    ∃ pre record post,
      message.records = pre ++ record :: post ∧
      (resolveLoop timeNow {} pre).2.2 = none ∧
      recordError (resolveLoop timeNow {} pre).2.1 record timeNow = some e ∧
      (Resolve message timeNow).1.records = (resolveLoop timeNow {} pre).1 := by
  have hloop : (resolveLoop timeNow {} message.records).2.2 = some e := by
    rw [← Resolve_err_component]
    exact h
  obtain ⟨pre, record, post, hsplit, hpre, herr, hout⟩ :=
    resolveLoop_error_decomp timeNow message.records {} e hloop
  refine ⟨pre, record, post, hsplit, hpre, herr, ?_⟩
  have hRes : Resolve message timeNow =
      ({ records := (resolveLoop timeNow {} message.records).1 }, some e) := by
    unfold Resolve
    simp only [hloop]
  rw [hRes]
  exact hout

/-- Witness for C3_first_error: the two-record pack whose second record has
no value fails with `missingValue`, produced by that second record, while the
first record resolved successfully. -/
theorem C3_first_error_witness :
    ∃ pre record post,
      ({ records := [{ name := some "a", value := some 1 },
          { name := some "b" }] } : Message).records = pre ++ record :: post ∧
      (resolveLoop 0 {} pre).2.2 = none ∧
      recordError (resolveLoop 0 {} pre).2.1 record 0 = some .missingValue ∧
      (Resolve { records := [{ name := some "a", value := some 1 },
          { name := some "b" }] } 0).1.records = (resolveLoop 0 {} pre).1 :=
  C3_first_error _ 0 .missingValue (by
    rw [Resolve_err_component]
    simp [resolveLoop, checkVersion, updateBaseState, resolveRecord,
      resolveUnit, resolveValue, resolveBoolValue, resolveStringValue,
      resolveDataValue, resolveSum, resolveTime, resolveUpdateTime,
      validateRecordHasValue, SupportedVersion,
      show resolveName none (some "a") = Except.ok "a" from rfl,
      show resolveName none (some "b") = Except.ok "b" from rfl])

/-- Counterexample to C3 as stated: the claim says a failing `Resolve` call
returns no resolved pack; on the two-record pack whose second record has no
value, the returned message contains the resolved first record next to the
error. -/
theorem C3_counterexample :
    (Resolve { records := [{ name := some "a", value := some 1 },
        { name := some "b" }] } 0).1.records =
      [{ name := some "a", value := some 1 }] ∧
    (Resolve { records := [{ name := some "a", value := some 1 },
        { name := some "b" }] } 0).2 = some .missingValue := by
  constructor
  · simp [Resolve, resolveLoop, checkVersion, updateBaseState, resolveRecord,
      resolveUnit, resolveValue, resolveBoolValue, resolveStringValue,
      resolveDataValue, resolveSum, resolveTime, resolveUpdateTime,
      validateRecordHasValue, SupportedVersion,
      show resolveName none (some "a") = Except.ok "a" from rfl,
      show resolveName none (some "b") = Except.ok "b" from rfl]
  · rw [Resolve_err_component]
    simp [resolveLoop, checkVersion, updateBaseState, resolveRecord,
      resolveUnit, resolveValue, resolveBoolValue, resolveStringValue,
      resolveDataValue, resolveSum, resolveTime, resolveUpdateTime,
      validateRecordHasValue, SupportedVersion,
      show resolveName none (some "a") = Except.ok "a" from rfl,
      show resolveName none (some "b") = Except.ok "b" from rfl]

/-- The sort preorder of the code coincides with the chronological key order
of the specification. -/
theorem recordLe_iff_timeKeyLe (a b : Record) : recordLe a b ↔ timeKeyLe a b := by
  rcases hta : a.time with _ | ta <;> rcases htb : b.time with _ | tb <;>
    simp [recordLe, recordLess, timeKeyLe, hta, htb, not_lt]

theorem recordLe_total (a b : Record) : recordLe a b ∨ recordLe b a := by
  rw [recordLe_iff_timeKeyLe, recordLe_iff_timeKeyLe]
  rcases hta : a.time with _ | ta <;> rcases htb : b.time with _ | tb <;>
    simp [timeKeyLe, hta, htb]
  exact le_total ta tb

theorem recordLe_trans (a b c : Record) (hab : recordLe a b) (hbc : recordLe b c) :
    recordLe a c := by
  rw [recordLe_iff_timeKeyLe] at hab hbc ⊢
  rcases hta : a.time with _ | ta <;> rcases htb : b.time with _ | tb <;>
    rcases htc : c.time with _ | tc <;>
    simp_all [timeKeyLe]
  exact le_trans hab hbc

theorem recordLe_of_time_eq {a b : Record} (h : a.time = b.time) : recordLe a b := by
  rw [recordLe_iff_timeKeyLe]
  rcases htb : b.time with _ | tb <;> rw [htb] at h <;> simp [timeKeyLe, h, htb]

/-- Stability of the modelled `sort.SliceStable`: filtering by a predicate
whose satisfying elements are pairwise `recordLe`-equivalent commutes with
sorting, i.e. ties keep their input order. -/
theorem filter_insertionSort_eq (p : Record → Bool) (l : List Record)
    (hp : ∀ a ∈ l, ∀ b ∈ l, p a = true → p b = true → recordLe a b) :
    (l.insertionSort recordLe).filter p = l.filter p := by
  have hsub : List.Sublist (l.filter p) l := List.filter_sublist l
  have hpair : (l.filter p).Pairwise recordLe := by
    apply List.pairwise_of_forall_mem_list
    intro a ha b hb
    rw [List.mem_filter] at ha hb
    exact hp a ha.1 b hb.1 ha.2 hb.2
  have h1 : List.Sublist (l.filter p) (l.insertionSort recordLe) :=
    List.sublist_insertionSort hpair hsub
  have h2 : (l.filter p).filter p = l.filter p :=
    List.filter_eq_self.mpr fun a ha => (List.mem_filter.mp ha).2
  have h3 : List.Sublist (l.filter p) ((l.insertionSort recordLe).filter p) := by
    have hf := h1.filter p
    rwa [h2] at hf
  have hperm : List.Perm ((l.insertionSort recordLe).filter p) (l.filter p) :=
    (List.perm_insertionSort recordLe l).filter p
  exact (h3.eq_of_length hperm.length_eq.symm).symm

/-- C4: a successfully resolved pack is the stable chronological sort of the
fold output: the records are pairwise ordered by the chronological key
(no-time records before dated ones, dated ones by ascending time), and for
every time key the records carrying that key appear in exactly the order the
fold produced them. -/
theorem C4_chronological_stable (message : Message) (timeNow : ℚ)
    (h : (Resolve message timeNow).2 = none) :
    (Resolve message timeNow).1.records =
      sortRecordsChronologically (preSortRecords message timeNow) ∧
    (Resolve message timeNow).1.records.Pairwise timeKeyLe ∧
    ∀ k : Option ℚ,
      (Resolve message timeNow).1.records.filter (fun r => decide (r.time = k)) =
        (preSortRecords message timeNow).filter fun r => decide (r.time = k) := by
  have hnone : (resolveLoop timeNow {} message.records).2.2 = none := by
    rw [← Resolve_err_component]
    exact h
  have hRes : (Resolve message timeNow).1.records =
      sortRecordsChronologically (preSortRecords message timeNow) := by
    unfold Resolve preSortRecords
    simp only [hnone]
  refine ⟨hRes, ?_, ?_⟩
  · rw [hRes]
    unfold sortRecordsChronologically
    haveI : IsTotal Record recordLe := ⟨recordLe_total⟩
    haveI : IsTrans Record recordLe := ⟨recordLe_trans⟩
    have hs : List.Sorted recordLe
        (List.insertionSort recordLe (preSortRecords message timeNow)) :=
      List.sorted_insertionSort recordLe _
    exact List.Pairwise.imp (fun hab => (recordLe_iff_timeKeyLe _ _).mp hab) hs
  · intro k
    rw [hRes]
    unfold sortRecordsChronologically
    apply filter_insertionSort_eq
    intro a ha b hb hpa hpb
    have hak : a.time = k := of_decide_eq_true hpa
    have hbk : b.time = k := of_decide_eq_true hpb
    exact recordLe_of_time_eq (hak.trans hbk.symm)

/-- Witness for C4_chronological_stable on the specification's example pack
`[⟨bn x, t 4, v 4⟩, ⟨v 1⟩, ⟨v 2⟩, ⟨t 3, v 3⟩]` at wall-clock time 0. -/
theorem C4_chronological_stable_witness :
    (Resolve { records := [{ baseName := some "x", time := some 4, value := some 4 },
        { value := some 1 }, { value := some 2 },
        { time := some 3, value := some 3 }] } 0).2 = none ∧
    (Resolve { records := [{ baseName := some "x", time := some 4, value := some 4 },
        { value := some 1 }, { value := some 2 },
        { time := some 3, value := some 3 }] } 0).1.records.Pairwise timeKeyLe := by
  have hnone :
      (Resolve { records := [{ baseName := some "x", time := some 4, value := some 4 },
        { value := some 1 }, { value := some 2 },
        { time := some 3, value := some 3 }] } 0).2 = none := by
    rw [Resolve_err_component]
    simp [resolveLoop, checkVersion, updateBaseState, resolveRecord,
      resolveUnit, resolveValue, resolveBoolValue, resolveStringValue,
      resolveDataValue, resolveSum, resolveTime, resolveUpdateTime,
      validateRecordHasValue, SupportedVersion, goTimeThreshold_eq,
      show resolveName (some "x") none = Except.ok "x" from rfl]
  exact ⟨hnone, (C4_chronological_stable _ 0 hnone).2.1⟩

/-- A record built by `resolveRecord` never carries a base version. -/
theorem resolveRecord_baseVersion (state : BaseState) (record : Record)
    (timeNow : ℚ) (rr : Record)
    (h : resolveRecord state record timeNow = .ok rr) : rr.baseVersion = none := by
  unfold resolveRecord at h
  split at h
  · exact absurd h (by simp)
  · simp only [] at h
    split at h
    · exact absurd h (by simp)
    · injection h with h
      rw [← h]

/-- Every record produced by the loop carries no base version (stamping
happens afterwards). -/
theorem resolveLoop_baseVersion_none (timeNow : ℚ) :
    ∀ (rs : List Record) (s : BaseState) (r : Record),
      r ∈ (resolveLoop timeNow s rs).1 → r.baseVersion = none := by
  intro rs
  induction rs with
  | nil =>
    intro s r hr
    simp [resolveLoop] at hr
  | cons record rest ih =>
    intro s r hr
    rcases hcv : checkVersion s record with e | stateV
    · simp only [resolveLoop_cons, hcv] at hr
      simp at hr
    · rcases hrr : resolveRecord (updateBaseState stateV record) record timeNow with
        e | rr
      · simp only [resolveLoop_cons, hcv, hrr] at hr
        simp at hr
      · simp only [resolveLoop_cons, hcv, hrr, List.mem_cons] at hr
        rcases hr with rfl | hr
        · exact resolveRecord_baseVersion _ _ _ _ hrr
        · exact ih _ r hr

/-- C7: on a successfully resolved pack, every output record carries the
pack's effective version (the final base version of the fold) iff that
version is lower than `SupportedVersion`, and carries no base version
otherwise. -/
theorem C7_version_stamping (message : Message) (timeNow : ℚ)
    (h : (Resolve message timeNow).2 = none) :
    ∀ r ∈ (Resolve message timeNow).1.records,
      r.baseVersion =
        match (resolveLoop timeNow {} message.records).2.1.baseVersion with
        | some v => if v < SupportedVersion then some v else none
        | none => none := by
  have hnone : (resolveLoop timeNow {} message.records).2.2 = none := by
    rw [← Resolve_err_component]
    exact h
  intro r hr
  have hRes : (Resolve message timeNow).1.records =
      sortRecordsChronologically (preSortRecords message timeNow) := by
    unfold Resolve preSortRecords
    simp only [hnone]
  rw [hRes, sortRecordsChronologically, List.mem_insertionSort] at hr
  unfold preSortRecords setBaseVersionIfNecessary at hr
  rcases hbv : (resolveLoop timeNow {} message.records).2.1.baseVersion with _ | v
  · simp only [hbv] at hr ⊢
    exact resolveLoop_baseVersion_none timeNow message.records {} r hr
  · simp only [hbv] at hr ⊢
    by_cases hlt : v < SupportedVersion
    · rw [if_pos hlt] at hr ⊢
      simp only [List.mem_map] at hr
      obtain ⟨r0, hr0, rfl⟩ := hr
      rfl
    · rw [if_neg hlt] at hr ⊢
      exact resolveLoop_baseVersion_none timeNow message.records {} r hr

/-- Witness for C7_version_stamping: a one-record pack declaring base version
5 resolves, and the output record is stamped with base version 5. -/
theorem C7_version_stamping_witness :
    (Resolve
      { records := [{ name := some "a", value := some 1, baseVersion := some 5 }] }
      0).2 = none ∧
    ∀ r ∈ (Resolve
      { records := [{ name := some "a", value := some 1, baseVersion := some 5 }] }
      0).1.records, r.baseVersion = some 5 := by
  have h :
      (Resolve
        { records := [{ name := some "a", value := some 1, baseVersion := some 5 }] }
        0).2 = none := by
    rw [Resolve_err_component]
    simp [resolveLoop, checkVersion, updateBaseState, resolveRecord,
      resolveUnit, resolveValue, resolveBoolValue, resolveStringValue,
      resolveDataValue, resolveSum, resolveTime, resolveUpdateTime,
      validateRecordHasValue, SupportedVersion,
      show resolveName none (some "a") = Except.ok "a" from rfl]
  refine ⟨h, fun r hr => ?_⟩
  have hv := C7_version_stamping _ 0 h r hr
  rw [hv]
  simp [resolveLoop, checkVersion, updateBaseState, resolveRecord,
    resolveUnit, resolveValue, resolveBoolValue, resolveStringValue,
    resolveDataValue, resolveSum, resolveTime, resolveUpdateTime,
    validateRecordHasValue, SupportedVersion,
    show resolveName none (some "a") = Except.ok "a" from rfl]

end SenML
